import Mathlib

/-!
Verification of the webhook receiver (src/webhook_receiver.py).

Python strings are modelled as lists of unicode scalar values (List Char).
Each definition below is a shallow embedding of the corresponding Python
function; the doc comment of each definition names the source lines it
embeds.  File contents are modelled as the list of their lines (Python's
line iteration), HTTP headers as Option values (headers.get returns None
when absent), and exceptions as Option results (none = the Python code
raised past the modelled function).
-/

set_option maxRecDepth 2048

/-- Python strings are sequences of unicode code points. -/
abbrev PyStr := List Char

/-- Coercion from a Lean string literal to the Python string model. -/
def pstr (s : String) : PyStr := s.data

/-- Whitespace characters stripped by Python str.strip() with no argument
(ASCII subset; the claims and the repository's data are ASCII). -/
def pyWsChar (c : Char) : Bool :=
  c = ' ' || c = '\t' || c = '\n' || c = '\x0d' || c = '\x0b' || c = '\x0c'

/-- Python s.strip(): drop leading and trailing whitespace. -/
def pyStrip (s : PyStr) : PyStr :=
  ((s.dropWhile pyWsChar).reverse.dropWhile pyWsChar).reverse

/-- Python s.split(sep) for a one-character separator: split at every
occurrence, keeping empty segments (so the result is never empty). -/
def pySplitChar (sep : Char) : PyStr → List PyStr
  | [] => [[]]
  | c :: rest =>
    if c = sep then [] :: pySplitChar sep rest
    else
      match pySplitChar sep rest with
      | [] => [[c]]
      | g :: gs => (c :: g) :: gs

/-- Python xs[1] on a list of strings.  The callers below only index lists
that are guaranteed to have at least two segments (the header was checked
to contain the scheme prefix ending in a space), so the default is never
reached; Python would raise IndexError there. -/
def pyIndex1 (xs : List PyStr) : PyStr := xs.getD 1 []

/-- Python s.split(sep, 1) together with unpacking into exactly two
variables: some (before, after) at the first separator occurrence, none
when the separator is absent (Python raises ValueError on unpacking). -/
def splitFirst (sep : Char) : PyStr → Option (PyStr × PyStr)
  | [] => none
  | c :: rest =>
    if c = sep then some ([], rest)
    else (splitFirst sep rest).map (fun p => (c :: p.1, p.2))

/-- Python substring test (needle in haystack). -/
def containsSub (needle hay : PyStr) : Bool :=
  if needle.isPrefixOf hay then true
  else
    match hay with
    | [] => false
    | _ :: t => containsSub needle t

/-- Python s.lower() (ASCII case mapping; full Unicode case mapping differs
only on characters that never occur in the claims' data). -/
def pyLower (s : PyStr) : PyStr := s.map Char.toLower

/-! ## Credential Store (src/webhook_receiver.py lines 50-81) -/

/-- Embedding of load_tokens (lines 50-62): the token file's lines are
filtered to those with non-empty strip, then stripped.  The file itself is
modelled as its list of lines; FileNotFoundError exits the process before
this function returns and is outside the per-request model. -/
def load_tokens (lines : List PyStr) : List PyStr :=
  (lines.filter (fun l => !(pyStrip l).isEmpty)).map pyStrip

/-- Python dict assignment d[k] = v, represented so that lookup by
List.lookup returns the most recent assignment (dict overwrite). -/
def dictSet (m : List (PyStr × PyStr)) (k v : PyStr) : List (PyStr × PyStr) :=
  (k, v) :: m

/-- Python d.get(k): the value of the latest assignment to k, if any. -/
def dictGet (m : List (PyStr × PyStr)) (k : PyStr) : Option PyStr :=
  m.lookup k

/-- Loop body of load_credentials: process the remaining lines given the
dictionary built so far.  A non-blank line whose strip contains no colon
makes the two-variable unpacking raise ValueError: result none. -/
def load_credentials_aux (acc : List (PyStr × PyStr)) :
    List PyStr → Option (List (PyStr × PyStr))
  | [] => some acc
  | line :: rest =>
    let s := pyStrip line
    if s.isEmpty then load_credentials_aux acc rest
    else
      match splitFirst ':' s with
      | none => none
      | some (u, p) => load_credentials_aux (dictSet acc u p) rest

/-- Embedding of load_credentials (lines 65-81): build the
username-to-password dictionary from the credential file's lines; none
models an uncaught ValueError escaping the function. -/
def load_credentials (lines : List PyStr) : Option (List (PyStr × PyStr)) :=
  load_credentials_aux [] lines

/-! ## Authenticator (src/webhook_receiver.py lines 84-127) -/

/-- Embedding of authenticate_bearer (lines 84-101).  The Authorization
header is an Option (headers.get).  The candidate token is
auth_header.split(" ")[1], and acceptance is Python list membership in
load_tokens(). -/
def authenticate_bearer (tokLines : List PyStr) (authHeader : Option PyStr) : Bool :=
  match authHeader with
  | none => false
  | some h =>
    if (pstr "Bearer ").isPrefixOf h then
      (load_tokens tokLines).contains (pyIndex1 (pySplitChar ' ' h))
    else false

/-- Embedding of authenticate_basic (lines 104-127).  The decode argument
models b64decode followed by .decode("utf-8") on the extracted segment:
none when either raises (binascii.Error is a ValueError, and
UnicodeDecodeError is also caught), some of the decoded text otherwise.
The final comparison is credentials.get(username) == password, and a none
result models the ValueError raised by load_credentials escaping the
function (load_credentials is called outside the try block). -/
def authenticate_basic (credLines : List PyStr) (decode : PyStr → Option PyStr)
    (authHeader : Option PyStr) : Option Bool :=
  match authHeader with
  | none => some false
  | some h =>
    if (pstr "Basic ").isPrefixOf h then
      match decode (pyIndex1 (pySplitChar ' ' h)) with
      | none => some false
      | some d =>
        match splitFirst ':' d with
        | none => some false
        | some (u, p) =>
          (load_credentials credLines).map (fun m => dictGet m u == some p)
    else some false

/-! ## JSON values and Python json.dumps -/

/-- Parsed JSON values as Python's json module represents them.  Finite
numbers are restricted to integers; the one float whose behavior is
observably different from every integer in this development — NaN, which
json.loads accepts and which is unequal to itself under Python == — is a
constructor of its own.  Finite non-integer floats round-trip exactly
through repr in Python (shortest round-trip repr) and are omitted. -/
inductive JSON where
  | null
  | bool (b : Bool)
  | num (n : Int)
  | nan
  | str (s : PyStr)
  | arr (elems : List JSON)
  | obj (fields : List (PyStr × JSON))

/-- Python truthiness (bool(x)) of a parsed JSON value: None, False, 0,
empty string, empty list and empty dict are falsy. -/
def pyTruthy : JSON → Bool
  | .null => false
  | .bool b => b
  | .num n => n != 0
  | .nan => true
  | .str s => !s.isEmpty
  | .arr es => !es.isEmpty
  | .obj fs => !fs.isEmpty

/-- Lowercase hexadecimal digit, as produced by Python's %04x. -/
def hexDigit (k : Nat) : Char :=
  if k = 0 then '0' else if k = 1 then '1' else if k = 2 then '2'
  else if k = 3 then '3' else if k = 4 then '4' else if k = 5 then '5'
  else if k = 6 then '6' else if k = 7 then '7' else if k = 8 then '8'
  else if k = 9 then '9' else if k = 10 then 'a' else if k = 11 then 'b'
  else if k = 12 then 'c' else if k = 13 then 'd' else if k = 14 then 'e'
  else 'f'

/-- Four lowercase hex digits of n < 0x10000 (Python's \uXXXX payload). -/
def hex4 (n : Nat) : PyStr :=
  [hexDigit (n / 4096 % 16), hexDigit (n / 256 % 16),
   hexDigit (n / 16 % 16), hexDigit (n % 16)]

/-- Escaping of one character inside a JSON string literal as Python
json.dumps performs it with its default ensure_ascii=True: the short
escapes of ESCAPE_DCT, \u00xx for other control characters, and \uxxxx
(with a surrogate pair beyond the BMP) for every character outside
0x20..0x7e. -/
def escapeChar (c : Char) : PyStr :=
  if c = '"' then ['\\', '"']
  else if c = '\\' then ['\\', '\\']
  else if c = '\n' then ['\\', 'n']
  else if c = '\x0d' then ['\\', 'r']
  else if c = '\t' then ['\\', 't']
  else if c = '\x08' then ['\\', 'b']
  else if c = '\x0c' then ['\\', 'f']
  else if 0x20 ≤ c.toNat && c.toNat ≤ 0x7e then [c]
  else if c.toNat < 0x10000 then '\\' :: 'u' :: hex4 c.toNat
  else
    '\\' :: 'u' :: hex4 (0xd800 + (c.toNat - 0x10000) / 0x400) ++
      '\\' :: 'u' :: hex4 (0xdc00 + (c.toNat - 0x10000) % 0x400)

/-- Python json.dumps escaping of a whole string body. -/
def escapeString (s : PyStr) : PyStr := s.flatMap escapeChar

/-- Decimal digit character. -/
def digitChar (k : Nat) : Char := hexDigit (k % 10)

/-- Decimal representation of a natural number (Python repr). -/
def natRepr (n : Nat) : PyStr :=
  if _h : n < 10 then [digitChar n]
  else natRepr (n / 10) ++ [digitChar (n % 10)]
decreasing_by exact Nat.div_lt_self (by omega) (by omega)

/-- Decimal representation of an integer (Python repr, used by
json.dumps for int values). -/
def intRepr (n : Int) : PyStr :=
  if n < 0 then '-' :: natRepr n.natAbs else natRepr n.toNat

mutual

/-- Embedding of Python json.dumps with its default arguments
(ensure_ascii=True, separators (", ", ": "), no indent), producing the
canonical serialized text the webhook handler stores. -/
def dumpsChars : JSON → PyStr
  | .null => pstr "null"
  | .bool true => pstr "true"
  | .bool false => pstr "false"
  | .num n => intRepr n
  | .nan => pstr "NaN"
  | .str s => '"' :: escapeString s ++ ['"']
  | .arr es => '[' :: dumpsList es ++ [']']
  | .obj fs => '{' :: dumpsFields fs ++ ['}']

/-- Array elements joined by the default item separator ", ". -/
def dumpsList : List JSON → PyStr
  | [] => []
  | [e] => dumpsChars e
  | e :: e' :: es => dumpsChars e ++ ',' :: ' ' :: dumpsList (e' :: es)

/-- Object members (quoted key, ": ", value) joined by ", ". -/
def dumpsFields : List (PyStr × JSON) → PyStr
  | [] => []
  | [(k, v)] => '"' :: escapeString k ++ '"' :: ':' :: ' ' :: dumpsChars v
  | (k, v) :: f :: fs =>
    '"' :: escapeString k ++ '"' :: ':' :: ' ' :: dumpsChars v ++ ',' :: ' ' :: dumpsFields (f :: fs)

end

/-! ## Message store (src/webhook_receiver.py lines 135-146) -/

/-- Embedding of the GET /messages handler get_messages (lines 135-146).
The messages table is modelled as the list of (timestamp, data) rows in
insertion (id) order.  The SQL query takes the 100 most recent rows
newest-first; a non-empty lowercased search filters them by substring of
the lowercased data column; the final reversal presents oldest first. -/
def get_messages (store : List (PyStr × PyStr)) (search : PyStr) : List (PyStr × PyStr) :=
  let q := pyLower search
  let msgs := store.reverse.take 100
  let msgs := if !q.isEmpty then msgs.filter (fun m => containsSub q (pyLower m.2)) else msgs
  msgs.reverse

/-! ## Ingestion handler (src/webhook_receiver.py lines 149-182) -/

/-- HTTP response: status code and JSON body (jsonify serializes it). -/
structure Resp where
  status : Nat
  body : JSON

/-- Body jsonify({"error": msg}). -/
def errorBody (msg : String) : JSON := .obj [(pstr "error", .str (pstr msg))]

/-- Body jsonify({"status": "success", "message": "Webhook received"}). -/
def successBody : JSON :=
  .obj [(pstr "status", .str (pstr "success")),
        (pstr "message", .str (pstr "Webhook received"))]

/-- Short-circuit of authenticate_bearer(request) or
authenticate_basic(request): when the bearer check accepts, the basic
check (and any exception it would raise) is never evaluated. -/
def authOk (bearerOk : Bool) (basicRes : Option Bool) : Option Bool :=
  if bearerOk then some true else basicRes

/-- Modelled from the spec: Flask's request.get_json(), which is not part
of this repository.  Per the spec the body is parsed as JSON regardless of
the Content-Type header, and a body that fails to parse yields no value
(the 400 path), exactly like a body holding JSON null (Python None). -/
def get_json (parse : PyStr → Option JSON) (_contentType : Option PyStr)
    (body : PyStr) : Option JSON :=
  parse body

/-- Embedding of the webhook handler (lines 149-182) after the request has
been reduced to the outcome of its collaborators: the two authenticator
results, the parse result of the body, and the timestamp taken at
persistence time.  The result pairs the response with the new messages
table; none models an exception escaping the handler (an authentication
fault happens before the try block). -/
def webhook (bearerOk : Bool) (basicRes : Option Bool) (parsed : Option JSON)
    (ts : PyStr) (store : List (PyStr × PyStr)) :
    Option (Resp × List (PyStr × PyStr)) :=
  match authOk bearerOk basicRes with
  | none => none
  | some false => some (⟨401, errorBody "Unauthorized"⟩, store)
  | some true =>
    match parsed with
    | none => some (⟨400, errorBody "Invalid JSON payload"⟩, store)
    | some j =>
      if pyTruthy j then
        some (⟨200, successBody⟩, store ++ [(ts, dumpsChars j)])
      else
        some (⟨400, errorBody "Invalid JSON payload"⟩, store)

/-- Whole-request pipeline of POST /webhook: authenticators run on the
Authorization header against the credential files, the body is parsed by
get_json, and the webhook handler combines the outcomes. -/
def webhook_full (tokLines credLines : List PyStr) (decode : PyStr → Option PyStr)
    (parse : PyStr → Option JSON) (authHeader : Option PyStr)
    (contentType : Option PyStr) (body ts : PyStr)
    (store : List (PyStr × PyStr)) : Option (Resp × List (PyStr × PyStr)) :=
  webhook (authenticate_bearer tokLines authHeader)
    (authenticate_basic credLines decode authHeader)
    (get_json parse contentType body) ts store

/-! ## JSON parsing (the json module's loads, as used to re-read a stored
payload).  The parser accepts the grammar json.dumps emits — including
\uXXXX escapes with surrogate pairs and the insignificant whitespace that
loads skips; it is restricted to integer numerals like the JSON model
above, and it cannot represent the lone-surrogate strings Python would
produce from an unpaired \uD800-\uDFFF escape (dumps never emits one). -/

/-- Whitespace skipped by json.loads between tokens. -/
def jsonWsChar (c : Char) : Bool :=
  c = ' ' || c = '\t' || c = '\n' || c = '\x0d'

/-- Skip insignificant whitespace. -/
def skipWs (s : PyStr) : PyStr := s.dropWhile jsonWsChar

/-- Value of one hexadecimal digit. -/
def fromHexDigit (c : Char) : Option Nat :=
  if c.isDigit then some (c.toNat - 48)
  else if 'a' ≤ c && c ≤ 'f' then some (c.toNat - 87)
  else if 'A' ≤ c && c ≤ 'F' then some (c.toNat - 55)
  else none

/-- Read exactly four hexadecimal digits (the payload of \uXXXX). -/
def readHex4 : PyStr → Option (Nat × PyStr)
  | c1 :: c2 :: c3 :: c4 :: rest =>
    match fromHexDigit c1, fromHexDigit c2, fromHexDigit c3, fromHexDigit c4 with
    | some d1, some d2, some d3, some d4 =>
      some ((((d1 * 16 + d2) * 16 + d3) * 16 + d4), rest)
    | _, _, _, _ => none
  | _ => none

/-- Decode a \uXXXX escape payload, combining a high surrogate with the
following \uXXXX low surrogate into one scalar value. -/
def parseU (s : PyStr) : Option (Char × PyStr) :=
  match readHex4 s with
  | none => none
  | some (n, r2) =>
    if n < 0xd800 || 0xe000 ≤ n then some (Char.ofNat n, r2)
    else if n < 0xdc00 then
      if r2.head? == some '\\' && r2.tail.head? == some 'u' then
        match readHex4 r2.tail.tail with
        | none => none
        | some (m, r4) =>
          if 0xdc00 ≤ m && m < 0xe000 then
            some (Char.ofNat (0x10000 + (n - 0xd800) * 0x400 + (m - 0xdc00)), r4)
          else none
      else none
    else none

/-- Decode one backslash escape (the backslash already consumed). -/
def parseEscape : PyStr → Option (Char × PyStr)
  | [] => none
  | c :: rest =>
    if c = '"' then some ('"', rest)
    else if c = '\\' then some ('\\', rest)
    else if c = '/' then some ('/', rest)
    else if c = 'b' then some ('\x08', rest)
    else if c = 'f' then some ('\x0c', rest)
    else if c = 'n' then some ('\n', rest)
    else if c = 'r' then some ('\x0d', rest)
    else if c = 't' then some ('\t', rest)
    else if c = 'u' then parseU rest
    else none

/-- Consume a JSON string body up to and including the closing quote,
returning the decoded characters.  Unescaped control characters are
rejected (json.loads default strict mode).  Each step consumes at least
one input character, so callers pass the input length as fuel. -/
def parseStringBody : Nat → PyStr → Option (PyStr × PyStr)
  | 0, _ => none
  | _, [] => none
  | fuel + 1, c :: rest =>
    if c = '"' then some ([], rest)
    else if c = '\\' then
      match parseEscape rest with
      | none => none
      | some (e, r2) => (parseStringBody fuel r2).map (fun p => (e :: p.1, p.2))
    else if c.toNat < 0x20 then none
    else (parseStringBody fuel rest).map (fun p => (c :: p.1, p.2))

/-- Numeric value of a string of decimal digits. -/
def parseNatChars (ds : PyStr) : Nat :=
  ds.foldl (fun acc c => acc * 10 + (c.toNat - 48)) 0

/-- Parse a non-empty run of decimal digits. -/
def parseNatPart (s : PyStr) : Option (Nat × PyStr) :=
  if (s.takeWhile Char.isDigit).isEmpty then none
  else some (parseNatChars (s.takeWhile Char.isDigit), s.dropWhile Char.isDigit)

/-- Parse an integer numeral (optional minus sign, then digits). -/
def parseNumber : PyStr → Option (JSON × PyStr)
  | [] => none
  | c :: rest =>
    if c = '-' then (parseNatPart rest).map (fun p => (.num (-(p.1 : Int)), p.2))
    else (parseNatPart (c :: rest)).map (fun p => (.num (p.1 : Int), p.2))

mutual

/-- Parse one JSON value after skipping leading whitespace.  The fuel
bounds the nesting recursion; parseJSON supplies enough for any input. -/
def parseVal : Nat → PyStr → Option (JSON × PyStr)
  | 0, _ => none
  | fuel + 1, s =>
    match skipWs s with
    | [] => none
    | c :: rest =>
      if c = 'n' then
        if (pstr "ull").isPrefixOf rest then some (.null, rest.drop 3) else none
      else if c = 't' then
        if (pstr "rue").isPrefixOf rest then some (.bool true, rest.drop 3) else none
      else if c = 'f' then
        if (pstr "alse").isPrefixOf rest then some (.bool false, rest.drop 4) else none
      else if c = 'N' then
        if (pstr "aN").isPrefixOf rest then some (.nan, rest.drop 2) else none
      else if c = '"' then
        (parseStringBody (rest.length + 1) rest).map (fun p => (.str p.1, p.2))
      else if c = '[' then
        let r2 := skipWs rest
        if r2.head? == some ']' then some (.arr [], r2.tail)
        else (parseElems fuel r2).map (fun p => (.arr p.1, p.2))
      else if c = '{' then
        let r2 := skipWs rest
        if r2.head? == some '}' then some (.obj [], r2.tail)
        else (parseMembers fuel r2).map (fun p => (.obj p.1, p.2))
      else parseNumber (c :: rest)

/-- Parse the non-empty element list of an array, consuming the closing
bracket. -/
def parseElems : Nat → PyStr → Option (List JSON × PyStr)
  | 0, _ => none
  | fuel + 1, s =>
    match parseVal fuel s with
    | none => none
    | some (v, r) =>
      match skipWs r with
      | ',' :: r2 => (parseElems fuel r2).map (fun p => (v :: p.1, p.2))
      | ']' :: r2 => some ([v], r2)
      | _ => none

/-- Parse the non-empty member list of an object, consuming the closing
brace. -/
def parseMembers : Nat → PyStr → Option (List (PyStr × JSON) × PyStr)
  | 0, _ => none
  | fuel + 1, s =>
    match skipWs s with
    | '"' :: r =>
      match parseStringBody (r.length + 1) r with
      | none => none
      | some (k, r2) =>
        match skipWs r2 with
        | ':' :: r3 =>
          match parseVal fuel r3 with
          | none => none
          | some (v, r4) =>
            match skipWs r4 with
            | ',' :: r5 => (parseMembers fuel r5).map (fun p => ((k, v) :: p.1, p.2))
            | '}' :: r5 => some ([(k, v)], r5)
            | _ => none
        | _ => none
    | _ => none

end

/-- Embedding of json.loads: parse one value and require only whitespace
to remain. -/
def parseJSON (s : PyStr) : Option JSON :=
  match parseVal (s.length + 1) s with
  | some (j, r) => if (skipWs r).isEmpty then some j else none
  | none => none

mutual

/-- Parser calls consumed by parseVal on a dumped value; used only to
choose sufficient fuel in the round-trip development. -/
def mWeight : JSON → Nat
  | .null => 1
  | .bool _ => 1
  | .num _ => 1
  | .nan => 1
  | .str _ => 1
  | .arr es => 1 + mWeightList es
  | .obj fs => 1 + mWeightFields fs

/-- Parser calls consumed by parseElems on a dumped element list. -/
def mWeightList : List JSON → Nat
  | [] => 0
  | v :: vs => 1 + mWeight v + mWeightList vs

/-- Parser calls consumed by parseMembers on a dumped member list. -/
def mWeightFields : List (PyStr × JSON) → Nat
  | [] => 0
  | (_, v) :: fs => 1 + mWeight v + mWeightFields fs

end

mutual

/-- Python == between two parsed JSON values coming from independent
parses, as in the round-trip claim (the original parse of the body and
the re-parse of the stored text).  Containers compare elementwise:
CPython's identity short-circuit never applies across distinct parses,
and two parses of the same serialized object text list the keys in the
same order.  Booleans compare equal to the matching integers (True == 1),
and nan is unequal to everything, itself included. -/
def pyEq : JSON → JSON → Bool
  | .null, .null => true
  | .bool a, .bool b => a == b
  | .bool a, .num n => (if a then (1 : Int) else 0) == n
  | .num n, .bool a => n == (if a then (1 : Int) else 0)
  | .num a, .num b => a == b
  | .str a, .str b => a == b
  | .arr as, .arr bs => pyEqList as bs
  | .obj as, .obj bs => pyEqFields as bs
  | _, _ => false

/-- Elementwise Python == on lists. -/
def pyEqList : List JSON → List JSON → Bool
  | [], [] => true
  | a :: as, b :: bs => pyEq a b && pyEqList as bs
  | _, _ => false

/-- Elementwise Python == on object members in serialization order. -/
def pyEqFields : List (PyStr × JSON) → List (PyStr × JSON) → Bool
  | [], [] => true
  | (k1, v1) :: as, (k2, v2) :: bs => k1 == k2 && pyEq v1 v2 && pyEqFields as bs
  | _, _ => false

end

mutual

/-- A payload containing no NaN anywhere. -/
def noNaN : JSON → Bool
  | .nan => false
  | .arr es => noNaNList es
  | .obj fs => noNaNFields fs
  | _ => true

/-- No NaN anywhere in a list of values. -/
def noNaNList : List JSON → Bool
  | [] => true
  | v :: vs => noNaN v && noNaNList vs

/-- No NaN anywhere among object member values. -/
def noNaNFields : List (PyStr × JSON) → Bool
  | [] => true
  | (_, v) :: fs => noNaN v && noNaNFields fs

end

/-! ## Helper lemmas -/

theorem pySplitChar_head (sep : Char) (l : PyStr) :
    ∃ gs, pySplitChar sep l = l.takeWhile (fun c => c != sep) :: gs := by
  induction l with
  | nil => exact ⟨[], rfl⟩
  | cons c t ih =>
    by_cases hc : c = sep
    · subst hc
      exact ⟨pySplitChar c t, by simp [pySplitChar, List.takeWhile_cons]⟩
    · obtain ⟨gs, hgs⟩ := ih
      refine ⟨gs, ?_⟩
      simp [pySplitChar, hc, hgs, List.takeWhile_cons]

theorem pySplitChar_bearer (rest : PyStr) :
    pySplitChar ' ' (pstr "Bearer " ++ rest) = pstr "Bearer" :: pySplitChar ' ' rest := rfl

theorem bearer_candidate_eq (rest : PyStr) :
    pyIndex1 (pySplitChar ' ' (pstr "Bearer " ++ rest)) =
      rest.takeWhile (fun c => c != ' ') := by
  rw [pySplitChar_bearer]
  obtain ⟨gs, hgs⟩ := pySplitChar_head ' ' rest
  simp [pyIndex1, hgs]

theorem empty_not_in_load_tokens (tokLines : List PyStr) :
    [] ∉ load_tokens tokLines := by
  intro hmem
  simp only [load_tokens, List.mem_map, List.mem_filter] at hmem
  obtain ⟨l, ⟨-, hl⟩, hstrip⟩ := hmem
  rw [hstrip] at hl
  simp at hl

theorem basic_prefix_split (rest : PyStr) :
    pySplitChar ' ' (pstr "Basic " ++ rest) = pstr "Basic" :: pySplitChar ' ' rest := rfl

theorem basic_candidate_eq (rest : PyStr) :
    pyIndex1 (pySplitChar ' ' (pstr "Basic " ++ rest)) =
      rest.takeWhile (fun c => c != ' ') := by
  rw [basic_prefix_split]
  obtain ⟨gs, hgs⟩ := pySplitChar_head ' ' rest
  simp [pyIndex1, hgs]

theorem takeWhile_eq_self_of_no_sep (rest : PyStr) (hs : ' ' ∉ rest) :
    rest.takeWhile (fun c => c != ' ') = rest := by
  induction rest with
  | nil => rfl
  | cons c t ih =>
    simp only [List.mem_cons, not_or] at hs
    have hc : (c != ' ') = true := by
      simp only [bne_iff_ne, Ne]
      intro he
      exact hs.1 he.symm
    simp [List.takeWhile_cons, hc, ih hs.2]

theorem splitFirst_none_iff (sep : Char) (s : PyStr) :
    splitFirst sep s = none ↔ sep ∉ s := by
  induction s with
  | nil => simp [splitFirst]
  | cons c t ih =>
    by_cases hc : c = sep
    · subst hc; simp [splitFirst]
    · have hmap : splitFirst sep (c :: t) = (splitFirst sep t).map (fun p => (c :: p.1, p.2)) := by
        simp [splitFirst, hc]
      have hsc : ¬ sep = c := fun he => hc he.symm
      rw [hmap, Option.map_eq_none', ih]
      simp [List.mem_cons, hsc]

theorem splitFirst_append (u p : PyStr) (hu : ':' ∉ u) :
    splitFirst ':' (u ++ ':' :: p) = some (u, p) := by
  induction u with
  | nil => simp [splitFirst]
  | cons c t ih =>
    simp only [List.mem_cons, not_or] at hu
    simp [splitFirst, Ne.symm hu.1, ih hu.2]

theorem bearer_isPrefixOf (rest : PyStr) :
    (pstr "Bearer ").isPrefixOf (pstr "Bearer " ++ rest) = true :=
  List.isPrefixOf_iff_prefix.mpr (List.prefix_append _ _)

/-- C2: a request whose Authorization header is "Bearer " followed by
anything is accepted exactly when the remainder up to the first following
space is one of the loaded tokens; the empty candidate is never in the
loaded token set (lines are stripped and blank lines dropped), so it is
always rejected. -/
theorem claim_C2_bearer_accept_iff (tokLines : List PyStr) (rest : PyStr) :
    (authenticate_bearer tokLines (some (pstr "Bearer " ++ rest)) = true ↔
      rest.takeWhile (fun c => c != ' ') ∈ load_tokens tokLines)
    ∧ [] ∉ load_tokens tokLines := by
  refine ⟨?_, empty_not_in_load_tokens tokLines⟩
  simp only [authenticate_bearer, bearer_isPrefixOf rest, if_true, bearer_candidate_eq rest]
  exact List.elem_iff

theorem splitFirst_some_char (sep : Char) :
    ∀ {d u p : PyStr}, splitFirst sep d = some (u, p) → d = u ++ sep :: p ∧ sep ∉ u := by
  intro d
  induction d with
  | nil => intro u p h; cases h
  | cons c t ih =>
    intro u p h
    by_cases hc : c = sep
    · subst hc
      simp only [splitFirst, if_pos rfl, Option.some.injEq, Prod.mk.injEq] at h
      obtain ⟨rfl, rfl⟩ := h
      simp
    · simp only [splitFirst, if_neg hc] at h
      cases hsf : splitFirst sep t with
      | none => rw [hsf] at h; cases h
      | some q =>
        rw [hsf] at h
        simp only [Option.map_some', Option.some.injEq, Prod.mk.injEq] at h
        obtain ⟨rfl, rfl⟩ := h
        obtain ⟨hd, hnot⟩ := ih hsf
        constructor
        · rw [List.cons_append, ← hd]
        · simp only [List.mem_cons, not_or]
          exact ⟨fun he => hc he.symm, hnot⟩

theorem basic_isPrefixOf (rest : PyStr) :
    (pstr "Basic ").isPrefixOf (pstr "Basic " ++ rest) = true :=
  List.isPrefixOf_iff_prefix.mpr (List.prefix_append _ _)

/-- C3: for a Basic header whose base64 payload decodes to a UTF-8 string,
the decoded string is split at its first colon into username and password
(the split-characterization conjunct shows the password keeps every later
colon), and the request is accepted exactly when the loaded credential map
has that username bound to exactly that password. -/
theorem claim_C3_basic_accept_iff (credLines : List PyStr) (m : List (PyStr × PyStr))
    (decode : PyStr → Option PyStr) (enc d u p : PyStr)
    (hm : load_credentials credLines = some m)
    (hsp : ' ' ∉ enc)
    (hdec : decode enc = some d)
    (hsplit : splitFirst ':' d = some (u, p)) :
    (authenticate_basic credLines decode (some (pstr "Basic " ++ enc)) = some true ↔
      dictGet m u = some p)
    ∧ d = u ++ ':' :: p ∧ ':' ∉ u := by
  refine ⟨?_, splitFirst_some_char ':' hsplit⟩
  have hcand : pyIndex1 (pySplitChar ' ' (pstr "Basic " ++ enc)) = enc := by
    rw [basic_candidate_eq, takeWhile_eq_self_of_no_sep enc hsp]
  simp only [authenticate_basic, basic_isPrefixOf enc, if_true, hcand, hdec, hsplit, hm,
    Option.map_some', Option.some.injEq]
  exact beq_iff_eq

/-- C3 witness at the spec's own example pair admin:admin123. -/
theorem claim_C3_witness :
    (authenticate_basic [pstr "admin:admin123"]
        (fun _ => some (pstr "admin:admin123")) (some (pstr "Basic QQ")) = some true ↔
      dictGet [(pstr "admin", pstr "admin123")] (pstr "admin") = some (pstr "admin123"))
    ∧ pstr "admin:admin123" = pstr "admin" ++ ':' :: pstr "admin123" ∧ ':' ∉ pstr "admin" :=
  claim_C3_basic_accept_iff [pstr "admin:admin123"] [(pstr "admin", pstr "admin123")]
    (fun _ => some (pstr "admin:admin123")) (pstr "QQ") (pstr "admin:admin123")
    (pstr "admin") (pstr "admin123") (by decide) (by decide) rfl (by decide)

/-- C6: a Basic header whose payload fails base64 decoding or UTF-8
decoding makes authenticate_basic return an ordinary rejection (the
exception is caught), never a fault. -/
theorem claim_C6_decode_failure_rejects (credLines : List PyStr)
    (decode : PyStr → Option PyStr) (hdr : PyStr)
    (hpre : (pstr "Basic ").isPrefixOf hdr = true)
    (hdec : decode (pyIndex1 (pySplitChar ' ' hdr)) = none) :
    authenticate_basic credLines decode (some hdr) = some false := by
  simp [authenticate_basic, hpre, hdec]

/-- C6 witness: undecodable payload after the Basic prefix. -/
theorem claim_C6_witness :
    authenticate_basic [] (fun _ => none) (some (pstr "Basic !!!")) = some false :=
  claim_C6_decode_failure_rejects [] (fun _ => none) (pstr "Basic !!!") (by decide) rfl

theorem load_credentials_aux_none (l : PyStr)
    (hne : pyStrip l ≠ []) (hnc : ':' ∉ pyStrip l) :
    ∀ (lines : List PyStr) (acc : List (PyStr × PyStr)),
      l ∈ lines → load_credentials_aux acc lines = none := by
  intro lines
  induction lines with
  | nil => intro acc h; cases h
  | cons line rest ih =>
    intro acc hmem
    rcases List.mem_cons.mp hmem with rfl | hmem'
    · have hsf : splitFirst ':' (pyStrip l) = none := (splitFirst_none_iff ':' _).mpr hnc
      have hemp : (pyStrip l).isEmpty = false := by
        cases hs : pyStrip l with
        | nil => exact absurd hs hne
        | cons a t => rfl
      simp [load_credentials_aux, hemp, hsf]
    · by_cases hline : (pyStrip line).isEmpty
      · simp [load_credentials_aux, hline, ih acc hmem']
      · cases hsf : splitFirst ':' (pyStrip line) with
        | none => simp [load_credentials_aux, hline, hsf]
        | some q => simp [load_credentials_aux, hline, hsf, ih _ hmem']

/-- C10: a credentials file with a non-blank line holding no colon makes
load_credentials raise an uncaught ValueError, so a Basic request whose
header reaches the credential lookup faults instead of being rejected. -/
theorem claim_C10_bad_credentials_line_faults (lines : List PyStr) (l : PyStr)
    (hmem : l ∈ lines) (hne : pyStrip l ≠ []) (hnc : ':' ∉ pyStrip l)
    (decode : PyStr → Option PyStr) (hdr d u p : PyStr)
    (hpre : (pstr "Basic ").isPrefixOf hdr = true)
    (hdec : decode (pyIndex1 (pySplitChar ' ' hdr)) = some d)
    (hsplit : splitFirst ':' d = some (u, p)) :
    load_credentials lines = none ∧
    authenticate_basic lines decode (some hdr) = none := by
  have hload : load_credentials lines = none :=
    load_credentials_aux_none l hne hnc lines [] hmem
  refine ⟨hload, ?_⟩
  simp [authenticate_basic, hpre, hdec, hsplit, hload]

/-- C10 witness: the one-line file "nocolon" faults, and so does a Basic
request whose payload decodes to a:b against that file. -/
theorem claim_C10_witness :
    load_credentials [pstr "nocolon"] = none ∧
    authenticate_basic [pstr "nocolon"] (fun _ => some (pstr "a:b"))
      (some (pstr "Basic xx")) = none :=
  claim_C10_bad_credentials_line_faults [pstr "nocolon"] (pstr "nocolon")
    (by decide) (by decide) (by decide) (fun _ => some (pstr "a:b"))
    (pstr "Basic xx") (pstr "a:b") (pstr "a") (pstr "b") (by decide) rfl (by decide)

/-- C4: with a non-empty filter, GET /messages filters only the at most
100 most recent rows (the candidate window), keeps the candidates whose
data contains the lowercased filter as a substring of the lowercased data
(case-insensitive match), and returns the survivors oldest-first: it
equals the filtered last-100 suffix of the table in insertion order. -/
theorem claim_C4_filter_inside_window (store : List (PyStr × PyStr)) (search : PyStr)
    (hq : search ≠ []) :
    get_messages store search =
      (store.drop (store.length - 100)).filter
        (fun m => containsSub (pyLower search) (pyLower m.2)) := by
  have hqe : (pyLower search).isEmpty = false := by
    cases search with
    | nil => exact absurd rfl hq
    | cons c t => rfl
  simp only [get_messages, hqe, Bool.not_false, if_true]
  rw [List.take_reverse, List.filter_reverse, List.reverse_reverse]

/-- C4 witness: five rows of which the third an fifth contain foo; only
the third among the last three (3,4,5) survives, oldest-first. -/
theorem claim_C4_witness :
    get_messages [(pstr "t1", pstr "foo1"), (pstr "t2", pstr "x2"), (pstr "t3", pstr "FOO3"),
        (pstr "t4", pstr "x4"), (pstr "t5", pstr "foo5")] (pstr "Foo") =
      (([(pstr "t1", pstr "foo1"), (pstr "t2", pstr "x2"), (pstr "t3", pstr "FOO3"),
          (pstr "t4", pstr "x4"), (pstr "t5", pstr "foo5")].drop
            ([(pstr "t1", pstr "foo1"), (pstr "t2", pstr "x2"), (pstr "t3", pstr "FOO3"),
              (pstr "t4", pstr "x4"), (pstr "t5", pstr "foo5")].length - 100)).filter
        (fun m => containsSub (pyLower (pstr "Foo")) (pyLower m.2))) :=
  claim_C4_filter_inside_window _ (pstr "Foo") (by decide)

/-- C5: a POST /webhook request that both authenticators reject is
answered 401 with body {"error": "Unauthorized"}, processing stops at
that step, and the message table is unchanged. -/
theorem claim_C5_unauthorized_terminal (tokLines credLines : List PyStr)
    (decode : PyStr → Option PyStr) (parse : PyStr → Option JSON)
    (authHeader : Option PyStr) (ct : Option PyStr) (body ts : PyStr)
    (store : List (PyStr × PyStr))
    (hb : authenticate_bearer tokLines authHeader = false)
    (hbasic : authenticate_basic credLines decode authHeader = some false) :
    webhook_full tokLines credLines decode parse authHeader ct body ts store =
      some (⟨401, errorBody "Unauthorized"⟩, store) := by
  simp [webhook_full, webhook, authOk, hb, hbasic]

/-- C5 witness: no Authorization header fails both schemes. -/
theorem claim_C5_witness :
    webhook_full [] [] (fun _ => none) (fun _ => none) none none
      (pstr "{}") (pstr "ts") [] = some (⟨401, errorBody "Unauthorized"⟩, []) :=
  claim_C5_unauthorized_terminal [] [] (fun _ => none) (fun _ => none) none none
    (pstr "{}") (pstr "ts") [] rfl rfl

/-- C8: the Content-Type header plays no part in the pipeline: a request
without application/json is processed exactly like one with it, the body
being handed to the (spec-modelled) JSON parse either way. -/
theorem claim_C8_content_type_ignored (tokLines credLines : List PyStr)
    (decode : PyStr → Option PyStr) (parse : PyStr → Option JSON)
    (authHeader : Option PyStr) (ct ct' : Option PyStr) (body ts : PyStr)
    (store : List (PyStr × PyStr)) :
    webhook_full tokLines credLines decode parse authHeader ct body ts store =
      webhook_full tokLines credLines decode parse authHeader ct' body ts store := rfl

/-- C9: an authenticated request whose body parses to a non-null but
Python-falsy value (false, 0, empty string, empty array or empty object)
is answered 400 with {"error": "Invalid JSON payload"} and nothing is
persisted, the store being returned unchanged. -/
theorem claim_C9_falsy_nonnull_rejected (bearerOk : Bool) (basicRes : Option Bool)
    (j : JSON) (ts : PyStr) (store : List (PyStr × PyStr))
    (hauth : authOk bearerOk basicRes = some true)
    (hfalsy : pyTruthy j = false) (hnn : j ≠ JSON.null) :
    webhook bearerOk basicRes (some j) ts store =
      some (⟨400, errorBody "Invalid JSON payload"⟩, store) := by
  simp [webhook, hauth, hfalsy]

/-- C9 witness: the empty array, valid non-null JSON, is answered 400. -/
theorem claim_C9_witness :
    webhook true (some false) (some (JSON.arr [])) (pstr "ts") [] =
      some (⟨400, errorBody "Invalid JSON payload"⟩, []) :=
  claim_C9_falsy_nonnull_rejected true (some false) (JSON.arr []) (pstr "ts") []
    rfl rfl (fun h => JSON.noConfusion h)

/-- C1 (amended): for an authenticated request, the handler answers 400
with {"error": "Invalid JSON payload"} and an unchanged store exactly
when the body fails to parse or parses to a Python-falsy value (null,
false, 0, empty string, empty array, empty object); for any other parsed
value the response status is not 400.  The falsy non-null cases are the
amendment: they are valid non-null JSON yet still answered 400. -/
theorem claim_C1_amended_invalid_payload_iff (bearerOk : Bool) (basicRes : Option Bool)
    (parsed : Option JSON) (ts : PyStr) (store : List (PyStr × PyStr))
    (hauth : authOk bearerOk basicRes = some true) :
    (webhook bearerOk basicRes parsed ts store =
        some (⟨400, errorBody "Invalid JSON payload"⟩, store) ↔
      (parsed = none ∨ ∃ j, parsed = some j ∧ pyTruthy j = false)) ∧
    ((webhook bearerOk basicRes parsed ts store).map (fun r => r.1.status) = some 400 ↔
      (parsed = none ∨ ∃ j, parsed = some j ∧ pyTruthy j = false)) := by
  cases parsed with
  | none => simp [webhook, hauth]
  | some j =>
    by_cases hj : pyTruthy j
    · simp [webhook, hauth, hj]
    · simp only [Bool.not_eq_true] at hj
      simp [webhook, hauth, hj]

/-- C1, amended witness: the iff instantiated at an authenticated request
whose body parsed to the empty array. -/
theorem claim_C1_witness :
    (webhook true (some false) (some (JSON.arr [])) (pstr "ts") [] =
        some (⟨400, errorBody "Invalid JSON payload"⟩, []) ↔
      (some (JSON.arr []) = none ∨
        ∃ j, some (JSON.arr []) = some j ∧ pyTruthy j = false)) ∧
    ((webhook true (some false) (some (JSON.arr [])) (pstr "ts") []).map
        (fun r => r.1.status) = some 400 ↔
      (some (JSON.arr []) = none ∨
        ∃ j, some (JSON.arr []) = some j ∧ pyTruthy j = false)) :=
  claim_C1_amended_invalid_payload_iff true (some false) (some (JSON.arr []))
    (pstr "ts") [] rfl

/-- C1 counterexample: with a valid bearer token and the body text that
parses to the empty array — syntactically valid JSON whose value is not
null — the handler still answers 400 Invalid JSON payload, refuting the
claim's second half. -/
theorem claim_C1_counterexample :
    parseJSON (pstr "[]") = some (JSON.arr []) ∧ JSON.arr [] ≠ JSON.null ∧
    webhook_full [pstr "tok-A"] [] (fun _ => none) parseJSON
        (some (pstr "Bearer tok-A")) (some (pstr "application/json"))
        (pstr "[]") (pstr "ts") [] =
      some (⟨400, errorBody "Invalid JSON payload"⟩, []) :=
  ⟨rfl, fun h => JSON.noConfusion h, rfl⟩

/-! ## Round trip: character-level lemmas -/

theorem char_eq_of_toNat_eq {c d : Char} (h : c.toNat = d.toNat) : c = d := by
  apply Char.eq_of_val_eq
  exact UInt32.toNat.inj h

theorem char_ne_of_toNat_ne {c d : Char} (h : c.toNat ≠ d.toNat) : c ≠ d :=
  fun he => h (by rw [he])

theorem isDigit_of_range {c : Char} (h1 : 48 ≤ c.toNat) (h2 : c.toNat ≤ 57) :
    c.isDigit = true := by
  simp [Char.isDigit]
  exact ⟨h1, h2⟩

theorem range_of_isDigit {c : Char} (h : c.isDigit = true) :
    48 ≤ c.toNat ∧ c.toNat ≤ 57 := by
  simp [Char.isDigit] at h
  exact ⟨h.1, h.2⟩

theorem fromHexDigit_hexDigit : ∀ k, k < 16 → fromHexDigit (hexDigit k) = some k := by
  decide

theorem readHex4_hex4 (n : Nat) (hn : n < 65536) (r : PyStr) :
    readHex4 (hex4 n ++ r) = some (n, r) := by
  have h3 := fromHexDigit_hexDigit (n / 4096 % 16) (Nat.mod_lt _ (by omega))
  have h2 := fromHexDigit_hexDigit (n / 256 % 16) (Nat.mod_lt _ (by omega))
  have h1 := fromHexDigit_hexDigit (n / 16 % 16) (Nat.mod_lt _ (by omega))
  have h0 := fromHexDigit_hexDigit (n % 16) (Nat.mod_lt _ (by omega))
  simp only [hex4, List.cons_append, List.nil_append, readHex4, h3, h2, h1, h0,
    Option.some.injEq, Prod.mk.injEq]
  constructor
  · omega
  · trivial

theorem parseU_escape_bmp (c : Char) (hlt : c.toNat < 65536) (t : PyStr) :
    parseU (hex4 c.toNat ++ t) = some (c, t) := by
  have hv : c.toNat < 55296 ∨ (57344 ≤ c.toNat ∧ c.toNat < 1114112) := c.valid
  have hcond : (decide (c.toNat < 55296) || decide (57344 ≤ c.toNat)) = true := by
    rcases hv with h | h
    · simp [h]
    · simp [h.1]
  simp only [parseU, readHex4_hex4 c.toNat hlt t, hcond, if_true, Char.ofNat_toNat]

theorem parseU_escape_astral (c : Char) (hi lo : Nat) (t : PyStr)
    (hge : 65536 ≤ c.toNat)
    (hhi : hi = 55296 + (c.toNat - 65536) / 1024)
    (hlo : lo = 56320 + (c.toNat - 65536) % 1024) :
    parseU (hex4 hi ++ '\\' :: 'u' :: (hex4 lo ++ t)) = some (c, t) := by
  have hv : c.toNat < 55296 ∨ (57344 ≤ c.toNat ∧ c.toNat < 1114112) := c.valid
  have hdiv : (c.toNat - 65536) / 1024 < 1024 := by omega
  have hmod : (c.toNat - 65536) % 1024 < 1024 := by omega
  have hhi65 : hi < 65536 := by omega
  have hlo65 : lo < 65536 := by omega
  have hc1 : (decide (hi < 55296) || decide (57344 ≤ hi)) = false := by
    simp
    omega
  have hc2 : hi < 56320 := by omega
  have hc3 : (decide (56320 ≤ lo) && decide (lo < 57344)) = true := by
    simp
    omega
  have harith : 65536 + (hi - 55296) * 1024 + (lo - 56320) = c.toNat := by omega
  simp only [parseU, readHex4_hex4 hi hhi65 _, hc1, Bool.false_eq_true, if_false,
    if_pos hc2]
  simp only [List.cons_append, List.head?_cons, List.tail_cons, beq_self_eq_true,
    Bool.and_self, if_true]
  simp only [readHex4_hex4 lo hlo65 t, hc3, if_true, harith, Char.ofNat_toNat]

theorem parseStringBody_escapeChar (c : Char) (fuel : Nat) (t : PyStr) :
    parseStringBody (fuel + 1) (escapeChar c ++ t) =
      (parseStringBody fuel t).map (fun p => (c :: p.1, p.2)) := by
  by_cases h1 : c = '"'
  · subst h1; simp [escapeChar, parseStringBody, parseEscape]
  by_cases h2 : c = '\\'
  · subst h2; simp [escapeChar, parseStringBody, parseEscape]
  by_cases h3 : c = '\n'
  · subst h3; simp [escapeChar, parseStringBody, parseEscape]
  by_cases h4 : c = '\x0d'
  · subst h4; simp [escapeChar, parseStringBody, parseEscape]
  by_cases h5 : c = '\t'
  · subst h5; simp [escapeChar, parseStringBody, parseEscape]
  by_cases h6 : c = '\x08'
  · subst h6; simp [escapeChar, parseStringBody, parseEscape]
  by_cases h7 : c = '\x0c'
  · subst h7; simp [escapeChar, parseStringBody, parseEscape]
  by_cases h8 : 32 ≤ c.toNat ∧ c.toNat ≤ 126
  · have h8b : (decide (32 ≤ c.toNat) && decide (c.toNat ≤ 126)) = true := by
      simp [h8.1, h8.2]
    have hnc : ¬ c.toNat < 32 := by omega
    simp only [escapeChar, if_neg h1, if_neg h2, if_neg h3, if_neg h4, if_neg h5,
      if_neg h6, if_neg h7, h8b, if_true, List.singleton_append]
    simp [parseStringBody, h1, h2, hnc]
  by_cases h9 : c.toNat < 65536
  · have h8b : (decide (32 ≤ c.toNat) && decide (c.toNat ≤ 126)) = false := by
      simp only [Bool.and_eq_false_iff, decide_eq_false_iff_not]
      omega
    simp only [escapeChar, if_neg h1, if_neg h2, if_neg h3, if_neg h4, if_neg h5,
      if_neg h6, if_neg h7, h8b, Bool.false_eq_true, if_false, if_pos h9,
      List.cons_append]
    simp [parseStringBody, parseEscape, parseU_escape_bmp c h9 t]
  · have hge : 65536 ≤ c.toNat := by omega
    have h8b : (decide (32 ≤ c.toNat) && decide (c.toNat ≤ 126)) = false := by
      simp only [Bool.and_eq_false_iff, decide_eq_false_iff_not]
      omega
    simp only [escapeChar, if_neg h1, if_neg h2, if_neg h3, if_neg h4, if_neg h5,
      if_neg h6, if_neg h7, h8b, Bool.false_eq_true, if_false, if_neg h9,
      List.cons_append, List.append_assoc]
    have hpsb : ∀ (f : Nat) (X : PyStr), parseStringBody (f + 1) ('\\' :: X) =
        match parseEscape X with
        | none => none
        | some (e, r2) => (parseStringBody f r2).map (fun p => (e :: p.1, p.2)) :=
      fun f X => rfl
    have hpe : ∀ X : PyStr, parseEscape ('u' :: X) = parseU X := fun X => rfl
    rw [hpsb, hpe, parseU_escape_astral c _ _ t hge rfl rfl]

theorem escapeString_cons (c : Char) (t : PyStr) :
    escapeString (c :: t) = escapeChar c ++ escapeString t := by
  simp [escapeString]

theorem parseStringBody_escapeString (s : PyStr) :
    ∀ (fuel : Nat) (rest : PyStr), s.length < fuel →
      parseStringBody fuel (escapeString s ++ '"' :: rest) = some (s, rest) := by
  induction s with
  | nil =>
    intro fuel rest hf
    cases fuel with
    | zero => omega
    | succ f => simp [escapeString, parseStringBody]
  | cons c t ih =>
    intro fuel rest hf
    cases fuel with
    | zero => omega
    | succ f =>
      rw [escapeString_cons, List.append_assoc, parseStringBody_escapeChar c f _,
        ih f rest (by simp at hf; omega)]
      rfl

theorem hexDigit_lt10_isDigit : ∀ j, j < 10 → (hexDigit j).isDigit = true := by
  decide

theorem hexDigit_lt10_val : ∀ j, j < 10 → (hexDigit j).toNat - 48 = j := by
  decide

theorem digitChar_isDigit (k : Nat) : (digitChar k).isDigit = true :=
  hexDigit_lt10_isDigit (k % 10) (Nat.mod_lt _ (by omega))

theorem natRepr_ne_nil (n : Nat) : natRepr n ≠ [] := by
  unfold natRepr
  split
  · simp
  · simp

theorem natRepr_digits : ∀ (n : Nat), ∀ c ∈ natRepr n, c.isDigit = true := by
  intro n
  induction n using Nat.strong_induction_on with
  | _ n ih =>
    intro c hc
    unfold natRepr at hc
    split at hc
    · simp at hc
      subst hc
      exact digitChar_isDigit n
    · rename_i h10
      rcases List.mem_append.mp hc with h | h
      · exact ih (n / 10) (Nat.div_lt_self (by omega) (by omega)) c h
      · simp at h
        subst h
        exact digitChar_isDigit (n % 10)

theorem parseNatChars_append_digit (xs : PyStr) (d : Char) :
    parseNatChars (xs ++ [d]) = parseNatChars xs * 10 + (d.toNat - 48) := by
  simp [parseNatChars, List.foldl_append]

theorem mod10_lt (n : Nat) : n % 10 < 10 := Nat.mod_lt _ (by omega)

theorem digitChar_val (k : Nat) : (digitChar k).toNat - 48 = k % 10 := by
  have h := hexDigit_lt10_val (k % 10) (mod10_lt k)
  simpa [digitChar] using h

theorem parseNatChars_natRepr : ∀ n, parseNatChars (natRepr n) = n := by
  intro n
  induction n using Nat.strong_induction_on with
  | _ n ih =>
    unfold natRepr
    split
    · rename_i h10
      have hv := digitChar_val n
      simp [parseNatChars, List.foldl]
      omega
    · rename_i h10
      rw [parseNatChars_append_digit, ih (n / 10) (Nat.div_lt_self (by omega) (by omega))]
      have hv := digitChar_val (n % 10)
      omega

theorem takeWhile_digit_append (xs rest : PyStr)
    (hxs : ∀ c ∈ xs, c.isDigit = true)
    (hrest : ∀ c, rest.head? = some c → c.isDigit = false) :
    (xs ++ rest).takeWhile Char.isDigit = xs ∧
    (xs ++ rest).dropWhile Char.isDigit = rest := by
  induction xs with
  | nil =>
    simp only [List.nil_append]
    cases rest with
    | nil => simp
    | cons c t =>
      have hc := hrest c rfl
      simp [List.takeWhile_cons, List.dropWhile_cons, hc]
  | cons x xs' ih =>
    have hx := hxs x (by simp)
    have ih' := ih (fun c hc => hxs c (by simp [hc]))
    simp [List.takeWhile_cons, List.dropWhile_cons, hx, ih'.1, ih'.2]

theorem intRepr_nonneg (n : Int) (h : 0 ≤ n) : intRepr n = natRepr n.toNat := by
  unfold intRepr
  rw [if_neg (by omega)]

theorem intRepr_neg (n : Int) (h : n < 0) : intRepr n = '-' :: natRepr n.natAbs := by
  unfold intRepr
  rw [if_pos h]

theorem natRepr_isEmpty_false (m : Nat) : (natRepr m).isEmpty = false := by
  cases h : natRepr m with
  | nil => exact absurd h (natRepr_ne_nil m)
  | cons a t => rfl

theorem parseNatPart_natRepr (m : Nat) (rest : PyStr)
    (hrest : ∀ c, rest.head? = some c → c.isDigit = false) :
    parseNatPart (natRepr m ++ rest) = some (m, rest) := by
  obtain ⟨htake, hdrop⟩ := takeWhile_digit_append (natRepr m) rest (natRepr_digits m) hrest
  simp [parseNatPart, htake, hdrop, natRepr_isEmpty_false, parseNatChars_natRepr]

theorem parseNumber_intRepr (n : Int) (rest : PyStr)
    (hrest : ∀ c, rest.head? = some c → c.isDigit = false) :
    parseNumber (intRepr n ++ rest) = some (.num n, rest) := by
  by_cases hn : n < 0
  · rw [intRepr_neg n hn]
    have hval : -((n.natAbs : Nat) : Int) = n := by omega
    rw [List.cons_append]
    have hstep : parseNumber ('-' :: (natRepr n.natAbs ++ rest)) =
        (parseNatPart (natRepr n.natAbs ++ rest)).map
          (fun p => (.num (-(p.1 : Int)), p.2)) := by
      simp [parseNumber]
    rw [hstep, parseNatPart_natRepr n.natAbs rest hrest]
    simp only [Option.map_some', hval]
  · rw [intRepr_nonneg n (by omega)]
    obtain ⟨d, ds, hd⟩ : ∃ d ds, natRepr n.toNat = d :: ds := by
      cases h : natRepr n.toNat with
      | nil => exact absurd h (natRepr_ne_nil _)
      | cons a t => exact ⟨a, t, rfl⟩
    have hdig : d.isDigit = true := by
      apply natRepr_digits n.toNat
      rw [hd]
      simp
    have hdne : ¬ d = '-' := by
      intro he
      rw [he] at hdig
      exact absurd hdig (by decide)
    have hval : ((n.toNat : Nat) : Int) = n := by omega
    rw [hd, List.cons_append]
    simp only [parseNumber, if_neg hdne]
    rw [← List.cons_append, ← hd, parseNatPart_natRepr n.toNat rest hrest]
    simp only [Option.map_some', hval]

theorem digit_char_facts (d : Char) (h : d.isDigit = true) :
    jsonWsChar d = false ∧ (d == ']') = false ∧ (d == '}') = false ∧
    ¬ d = 'n' ∧ ¬ d = 't' ∧ ¬ d = 'f' ∧ ¬ d = 'N' ∧ ¬ d = '"' ∧ ¬ d = '[' ∧ ¬ d = '{' := by
  obtain ⟨h1, h2⟩ := range_of_isDigit h
  have ne : ∀ (x : Char), x.toNat < 48 ∨ 57 < x.toNat → ¬ d = x := by
    intro x hx he
    subst he
    omega
  refine ⟨?_, ?_, ?_, ne 'n' (by decide), ne 't' (by decide), ne 'f' (by decide),
    ne 'N' (by decide), ne '"' (by decide), ne '[' (by decide), ne '{' (by decide)⟩
  · simp [jsonWsChar, ne ' ' (by decide), ne '\t' (by decide), ne '\n' (by decide),
      ne '\x0d' (by decide)]
  · simp only [beq_eq_false_iff_ne, ne_eq]
    exact ne ']' (by decide)
  · simp only [beq_eq_false_iff_ne, ne_eq]
    exact ne '}' (by decide)

theorem skipWs_not_ws {c : Char} (h : jsonWsChar c = false) (t : PyStr) :
    skipWs (c :: t) = c :: t := by
  simp [skipWs, List.dropWhile_cons, h]

theorem skipWs_space (t : PyStr) : skipWs (' ' :: t) = skipWs t := by
  simp [skipWs, List.dropWhile_cons, jsonWsChar]

theorem dumps_head (j : JSON) : ∃ c t, dumpsChars j = c :: t ∧
    jsonWsChar c = false ∧ (c == ']') = false ∧ (c == '}') = false := by
  cases j with
  | null =>
    exact ⟨'n', ['u', 'l', 'l'], by simp [dumpsChars, pstr], by decide, by decide, by decide⟩
  | bool b =>
    cases b with
    | true =>
      exact ⟨'t', ['r', 'u', 'e'], by simp [dumpsChars, pstr], by decide, by decide, by decide⟩
    | false =>
      exact ⟨'f', ['a', 'l', 's', 'e'], by simp [dumpsChars, pstr], by decide, by decide,
        by decide⟩
  | num n =>
    by_cases hn : n < 0
    · exact ⟨'-', natRepr n.natAbs, by simp [dumpsChars, intRepr_neg n hn], by decide,
        by decide, by decide⟩
    · obtain ⟨d, ds, hd⟩ : ∃ d ds, natRepr n.toNat = d :: ds := by
        cases h : natRepr n.toNat with
        | nil => exact absurd h (natRepr_ne_nil _)
        | cons a t => exact ⟨a, t, rfl⟩
      have hdig : d.isDigit = true := by
        apply natRepr_digits n.toNat
        rw [hd]
        simp
      obtain ⟨f1, f2, f3, -⟩ := digit_char_facts d hdig
      exact ⟨d, ds, by simp [dumpsChars, intRepr_nonneg n (by omega), hd], f1, f2, f3⟩
  | nan =>
    exact ⟨'N', ['a', 'N'], by simp [dumpsChars, pstr], by decide, by decide, by decide⟩
  | str s =>
    exact ⟨'"', escapeString s ++ ['"'], by simp [dumpsChars], by decide, by decide, by decide⟩
  | arr es =>
    exact ⟨'[', dumpsList es ++ [']'], by simp [dumpsChars], by decide, by decide, by decide⟩
  | obj fs =>
    exact ⟨'{', dumpsFields fs ++ ['}'], by simp [dumpsChars], by decide, by decide, by decide⟩

theorem mWeight_pos (j : JSON) : 1 ≤ mWeight j := by
  cases j <;> simp [mWeight]

mutual

theorem mWeight_le : ∀ j : JSON, mWeight j ≤ (dumpsChars j).length
  | .null => by simp [mWeight, dumpsChars, pstr]
  | .bool true => by simp [mWeight, dumpsChars, pstr]
  | .bool false => by simp [mWeight, dumpsChars, pstr]
  | .num n => by
    have h : intRepr n ≠ [] := by
      unfold intRepr
      split
      · simp
      · exact natRepr_ne_nil _
    have := List.length_pos.mpr h
    simp only [mWeight, dumpsChars]
    omega
  | .nan => by simp [mWeight, dumpsChars, pstr]
  | .str s => by simp [mWeight, dumpsChars]
  | .arr es => by
    have h := mWeightList_le es
    simp [mWeight, dumpsChars]
    omega
  | .obj fs => by
    have h := mWeightFields_le fs
    simp [mWeight, dumpsChars]
    omega

theorem mWeightList_le : ∀ es : List JSON, mWeightList es ≤ (dumpsList es).length + 1
  | [] => by simp [mWeightList]
  | [v] => by
    have h := mWeight_le v
    simp [mWeightList, dumpsList]
    omega
  | v :: v' :: vs => by
    have h1 := mWeight_le v
    have h2 := mWeightList_le (v' :: vs)
    have e1 : mWeightList (v :: v' :: vs) = 1 + mWeight v + mWeightList (v' :: vs) := rfl
    have e2 : dumpsList (v :: v' :: vs) =
        dumpsChars v ++ ',' :: ' ' :: dumpsList (v' :: vs) := by
      simp [dumpsList]
    rw [e1, e2]
    simp only [List.length_append, List.length_cons]
    omega

theorem mWeightFields_le : ∀ fs : List (PyStr × JSON), mWeightFields fs ≤ (dumpsFields fs).length + 1
  | [] => by simp [mWeightFields]
  | [(k, v)] => by
    have h := mWeight_le v
    simp [mWeightFields, dumpsFields]
    omega
  | (k, v) :: f :: fs => by
    have h1 := mWeight_le v
    have h2 := mWeightFields_le (f :: fs)
    have e1 : mWeightFields ((k, v) :: f :: fs) =
        1 + mWeight v + mWeightFields (f :: fs) := rfl
    have e2 : dumpsFields ((k, v) :: f :: fs) =
        '"' :: escapeString k ++ '"' :: ':' :: ' ' :: dumpsChars v ++
          ',' :: ' ' :: dumpsFields (f :: fs) := by
      simp [dumpsFields]
    rw [e1, e2]
    simp only [List.length_append, List.length_cons]
    omega

end

theorem escapeChar_ne_nil (c : Char) : escapeChar c ≠ [] := by
  unfold escapeChar
  split_ifs <;> simp [hex4]

theorem escapeString_length (s : PyStr) : s.length ≤ (escapeString s).length := by
  induction s with
  | nil => simp [escapeString]
  | cons c t ih =>
    rw [escapeString_cons]
    have h := List.length_pos.mpr (escapeChar_ne_nil c)
    simp only [List.length_append, List.length_cons]
    omega

theorem dumpsFields_head (f0 : PyStr × JSON) (fs : List (PyStr × JSON)) :
    ∃ t, dumpsFields (f0 :: fs) = '"' :: t := by
  obtain ⟨k, v⟩ := f0
  cases fs with
  | nil =>
    refine ⟨escapeString k ++ '"' :: ':' :: ' ' :: dumpsChars v, ?_⟩
    simp [dumpsFields]
  | cons f1 fs' =>
    refine ⟨escapeString k ++ '"' :: ':' :: ' ' :: (dumpsChars v ++
      ',' :: ' ' :: dumpsFields (f1 :: fs')), ?_⟩
    simp [dumpsFields]

theorem skipWs_dumps (j : JSON) (x : PyStr) :
    skipWs (dumpsChars j ++ x) = dumpsChars j ++ x ∧
    ((dumpsChars j ++ x).head? == some ']') = false ∧
    ((dumpsChars j ++ x).head? == some '}') = false := by
  obtain ⟨c, t, hc, hws, hbr, hbrc⟩ := dumps_head j
  rw [hc, List.cons_append]
  refine ⟨skipWs_not_ws hws _, ?_, ?_⟩
  · simpa using hbr
  · simpa using hbrc
theorem parse_dumps_all : ∀ fuel : Nat,
    (∀ (j : JSON) (s rest : PyStr), mWeight j ≤ fuel →
      skipWs s = dumpsChars j ++ rest →
      (∀ c, rest.head? = some c → c.isDigit = false) →
      parseVal fuel s = some (j, rest)) ∧
    (∀ (es : List JSON) (s rest : PyStr), es ≠ [] → mWeightList es ≤ fuel →
      skipWs s = dumpsList es ++ ']' :: rest →
      parseElems fuel s = some (es, rest)) ∧
    (∀ (fs : List (PyStr × JSON)) (s rest : PyStr), fs ≠ [] → mWeightFields fs ≤ fuel →
      skipWs s = dumpsFields fs ++ '}' :: rest →
      parseMembers fuel s = some (fs, rest)) := by
  intro fuel
  induction fuel with
  | zero =>
    refine ⟨fun j s rest hw _ _ => ?_, fun es s rest hne hw _ => ?_,
      fun fs s rest hne hw _ => ?_⟩
    · exact absurd hw (by have := mWeight_pos j; omega)
    · cases es with
      | nil => exact absurd rfl hne
      | cons v vs =>
        exfalso
        have e : mWeightList (v :: vs) = 1 + mWeight v + mWeightList vs := rfl
        omega
    · cases fs with
      | nil => exact absurd rfl hne
      | cons f0 fs' =>
        exfalso
        obtain ⟨k, v⟩ := f0
        have e : mWeightFields ((k, v) :: fs') = 1 + mWeight v + mWeightFields fs' := rfl
        omega
  | succ f ih =>
    obtain ⟨ihV, ihE, ihM⟩ := ih
    refine ⟨?_, ?_, ?_⟩
    · intro j s rest hw hs hrest
      cases j with
      | null =>
        have hd : dumpsChars JSON.null = 'n' :: 'u' :: 'l' :: 'l' :: [] := by
          simp [dumpsChars, pstr]
        rw [hd] at hs
        simp only [List.cons_append, List.nil_append] at hs
        simp [parseVal, hs, pstr, List.isPrefixOf]
      | bool b =>
        cases b with
        | true =>
          have hd : dumpsChars (JSON.bool true) = 't' :: 'r' :: 'u' :: 'e' :: [] := by
            simp [dumpsChars, pstr]
          rw [hd] at hs
          simp only [List.cons_append, List.nil_append] at hs
          simp [parseVal, hs, pstr, List.isPrefixOf]
        | false =>
          have hd : dumpsChars (JSON.bool false) = 'f' :: 'a' :: 'l' :: 's' :: 'e' :: [] := by
            simp [dumpsChars, pstr]
          rw [hd] at hs
          simp only [List.cons_append, List.nil_append] at hs
          simp [parseVal, hs, pstr, List.isPrefixOf]
      | num n =>
        have hd : dumpsChars (JSON.num n) = intRepr n := by simp [dumpsChars]
        rw [hd] at hs
        by_cases hn : n < 0
        · rw [intRepr_neg n hn, List.cons_append] at hs
          simp only [parseVal, hs]
          rw [if_neg (by decide), if_neg (by decide), if_neg (by decide),
            if_neg (by decide), if_neg (by decide), if_neg (by decide),
            if_neg (by decide)]
          rw [← List.cons_append, ← intRepr_neg n hn, parseNumber_intRepr n rest hrest]
        · obtain ⟨d, ds, hdd⟩ : ∃ d ds, natRepr n.toNat = d :: ds := by
            cases h : natRepr n.toNat with
            | nil => exact absurd h (natRepr_ne_nil _)
            | cons a t => exact ⟨a, t, rfl⟩
          have hdig : d.isDigit = true := by
            apply natRepr_digits n.toNat
            rw [hdd]
            simp
          obtain ⟨-, -, -, hn1, hn2, hn3, hn4, hn5, hn6, hn7⟩ := digit_char_facts d hdig
          rw [intRepr_nonneg n (by omega), hdd, List.cons_append] at hs
          simp only [parseVal, hs]
          rw [if_neg hn1, if_neg hn2, if_neg hn3, if_neg hn4, if_neg hn5, if_neg hn6,
            if_neg hn7]
          rw [← List.cons_append, ← hdd, ← intRepr_nonneg n (by omega),
            parseNumber_intRepr n rest hrest]
      | nan =>
        have hd : dumpsChars JSON.nan = 'N' :: 'a' :: 'N' :: [] := by
          simp [dumpsChars, pstr]
        rw [hd] at hs
        simp only [List.cons_append, List.nil_append] at hs
        simp [parseVal, hs, pstr, List.isPrefixOf]
      | str s' =>
        have hd : dumpsChars (JSON.str s') = ('"' :: escapeString s') ++ ['"'] := by
          simp [dumpsChars]
        rw [hd] at hs
        simp only [List.append_assoc, List.cons_append, List.singleton_append,
          List.nil_append] at hs
        simp only [parseVal, hs]
        rw [if_neg (by decide), if_neg (by decide), if_neg (by decide),
          if_neg (by decide), if_pos (by trivial)]
        have hlen : s'.length < (escapeString s' ++ '"' :: rest).length + 1 := by
          have h1 := escapeString_length s'
          simp only [List.length_append, List.length_cons]
          omega
        rw [parseStringBody_escapeString s' _ rest hlen]
        rfl
      | arr es =>
        cases es with
        | nil =>
          have hd : dumpsChars (JSON.arr []) = '[' :: ']' :: [] := by
            simp [dumpsChars, dumpsList]
          rw [hd] at hs
          simp only [List.cons_append, List.nil_append] at hs
          simp only [parseVal, hs]
          rw [if_neg (by decide), if_neg (by decide), if_neg (by decide),
            if_neg (by decide), if_neg (by decide), if_pos (by trivial)]
          rw [skipWs_not_ws (by decide)]
          simp
        | cons v vs =>
          have hd : dumpsChars (JSON.arr (v :: vs)) =
              '[' :: dumpsList (v :: vs) ++ [']'] := by
            simp [dumpsChars]
          rw [hd] at hs
          simp only [List.cons_append, List.append_assoc, List.singleton_append,
            List.nil_append] at hs
          obtain ⟨Y, hY⟩ : ∃ Y, dumpsList (v :: vs) ++ ']' :: rest = dumpsChars v ++ Y := by
            cases vs with
            | nil => exact ⟨']' :: rest, by simp [dumpsList]⟩
            | cons v' vs' =>
              refine ⟨',' :: ' ' :: (dumpsList (v' :: vs') ++ ']' :: rest), ?_⟩
              simp [dumpsList]
          obtain ⟨hskip0, hbr0, -⟩ := skipWs_dumps v Y
          have hr2 : skipWs (dumpsList (v :: vs) ++ ']' :: rest) =
              dumpsList (v :: vs) ++ ']' :: rest := by
            rw [hY]
            exact hskip0
          have hbr' : ((dumpsList (v :: vs) ++ ']' :: rest).head? == some ']') = false := by
            rw [hY]
            exact hbr0
          have hwE : mWeightList (v :: vs) ≤ f := by
            have e : mWeight (JSON.arr (v :: vs)) = 1 + mWeightList (v :: vs) := rfl
            omega
          have hE := ihE (v :: vs) (dumpsList (v :: vs) ++ ']' :: rest) rest
            (by simp) hwE hr2
          simp only [parseVal, hs]
          rw [if_neg (by decide), if_neg (by decide), if_neg (by decide),
            if_neg (by decide), if_neg (by decide), if_pos (by trivial)]
          simp only [hr2, hbr', Bool.false_eq_true, if_false, hE, Option.map_some']
      | obj fs =>
        cases fs with
        | nil =>
          have hd : dumpsChars (JSON.obj []) = '{' :: '}' :: [] := by
            simp [dumpsChars, dumpsFields]
          rw [hd] at hs
          simp only [List.cons_append, List.nil_append] at hs
          simp only [parseVal, hs]
          rw [if_neg (by decide), if_neg (by decide), if_neg (by decide),
            if_neg (by decide), if_neg (by decide), if_neg (by decide),
            if_pos (by trivial)]
          rw [skipWs_not_ws (by decide)]
          simp
        | cons f0 fs' =>
          have hd : dumpsChars (JSON.obj (f0 :: fs')) =
              '{' :: dumpsFields (f0 :: fs') ++ ['}'] := by
            simp [dumpsChars]
          rw [hd] at hs
          simp only [List.cons_append, List.append_assoc, List.singleton_append,
            List.nil_append] at hs
          obtain ⟨t0, ht0⟩ := dumpsFields_head f0 fs'
          have hr2 : skipWs (dumpsFields (f0 :: fs') ++ '}' :: rest) =
              dumpsFields (f0 :: fs') ++ '}' :: rest := by
            rw [ht0, List.cons_append]
            exact skipWs_not_ws (by decide) _
          have hbr' : ((dumpsFields (f0 :: fs') ++ '}' :: rest).head? == some '}') = false := by
            rw [ht0, List.cons_append]
            simp
          have hwM : mWeightFields (f0 :: fs') ≤ f := by
            have e : mWeight (JSON.obj (f0 :: fs')) = 1 + mWeightFields (f0 :: fs') := rfl
            omega
          have hM := ihM (f0 :: fs') (dumpsFields (f0 :: fs') ++ '}' :: rest) rest
            (by simp) hwM hr2
          simp only [parseVal, hs]
          rw [if_neg (by decide), if_neg (by decide), if_neg (by decide),
            if_neg (by decide), if_neg (by decide), if_neg (by decide),
            if_pos (by trivial)]
          simp only [hr2, hbr', Bool.false_eq_true, if_false, hM, Option.map_some']
    · intro es s rest hne hw hs
      cases es with
      | nil => exact absurd rfl hne
      | cons v vs =>
        have hwv : mWeight v ≤ f := by
          have e : mWeightList (v :: vs) = 1 + mWeight v + mWeightList vs := rfl
          omega
        cases vs with
        | nil =>
          have hsv : skipWs s = dumpsChars v ++ ']' :: rest := by
            rw [hs]
            simp [dumpsList]
          have hV := ihV v s (']' :: rest) hwv hsv
            (by intro c hc; simp at hc; subst hc; decide)
          simp only [parseElems, hV]
          rw [skipWs_not_ws (by decide)]
          simp
        | cons v' vs' =>
          have hsv : skipWs s =
              dumpsChars v ++ ',' :: ' ' :: (dumpsList (v' :: vs') ++ ']' :: rest) := by
            rw [hs]
            simp [dumpsList]
          have hV := ihV v s (',' :: ' ' :: (dumpsList (v' :: vs') ++ ']' :: rest)) hwv hsv
            (by intro c hc; simp at hc; subst hc; decide)
          have hwE : mWeightList (v' :: vs') ≤ f := by
            have e1 : mWeightList (v :: v' :: vs') =
                1 + mWeight v + mWeightList (v' :: vs') := rfl
            omega
          obtain ⟨Y, hY⟩ : ∃ Y, dumpsList (v' :: vs') ++ ']' :: rest = dumpsChars v' ++ Y := by
            cases vs' with
            | nil => exact ⟨']' :: rest, by simp [dumpsList]⟩
            | cons v2 vs2 =>
              refine ⟨',' :: ' ' :: (dumpsList (v2 :: vs2) ++ ']' :: rest), ?_⟩
              simp [dumpsList]
          have hr5 : skipWs (' ' :: (dumpsList (v' :: vs') ++ ']' :: rest)) =
              dumpsList (v' :: vs') ++ ']' :: rest := by
            rw [skipWs_space, hY]
            exact (skipWs_dumps v' Y).1
          have hE := ihE (v' :: vs') (' ' :: (dumpsList (v' :: vs') ++ ']' :: rest)) rest
            (by simp) hwE hr5
          simp only [parseElems, hV]
          rw [skipWs_not_ws (by decide)]
          simp only [hE, Option.map_some']
    · intro fs s rest hne hw hs
      cases fs with
      | nil => exact absurd rfl hne
      | cons f0 fs' =>
        obtain ⟨k, val⟩ := f0
        have hwv : mWeight val ≤ f := by
          have e : mWeightFields ((k, val) :: fs') =
              1 + mWeight val + mWeightFields fs' := rfl
          omega
        cases fs' with
        | nil =>
          have hsd : skipWs s =
              '"' :: (escapeString k ++ '"' :: ':' :: ' ' ::
                (dumpsChars val ++ '}' :: rest)) := by
            rw [hs]
            simp [dumpsFields]
          have hlen : k.length < (escapeString k ++ '"' :: ':' :: ' ' ::
              (dumpsChars val ++ '}' :: rest)).length + 1 := by
            have h1 := escapeString_length k
            simp only [List.length_append, List.length_cons]
            omega
          have hsb := parseStringBody_escapeString k
            ((escapeString k ++ '"' :: ':' :: ' ' ::
              (dumpsChars val ++ '}' :: rest)).length + 1)
            (':' :: ' ' :: (dumpsChars val ++ '}' :: rest)) hlen
          have hsv : skipWs (' ' :: (dumpsChars val ++ '}' :: rest)) =
              dumpsChars val ++ '}' :: rest := by
            rw [skipWs_space]
            exact (skipWs_dumps val ('}' :: rest)).1
          have hV := ihV val (' ' :: (dumpsChars val ++ '}' :: rest)) ('}' :: rest) hwv hsv
            (by intro c hc; simp at hc; subst hc; decide)
          simp only [parseMembers, hsd, hsb]
          rw [skipWs_not_ws (by decide)]
          simp only [hV]
          rw [skipWs_not_ws (by decide)]
          simp
        | cons f1 fs'' =>
          have hsd : skipWs s =
              '"' :: (escapeString k ++ '"' :: ':' :: ' ' ::
                (dumpsChars val ++ ',' :: ' ' ::
                  (dumpsFields (f1 :: fs'') ++ '}' :: rest))) := by
            rw [hs]
            simp [dumpsFields]
          have hlen : k.length < (escapeString k ++ '"' :: ':' :: ' ' ::
              (dumpsChars val ++ ',' :: ' ' ::
                (dumpsFields (f1 :: fs'') ++ '}' :: rest))).length + 1 := by
            have h1 := escapeString_length k
            simp only [List.length_append, List.length_cons]
            omega
          have hsb := parseStringBody_escapeString k
            ((escapeString k ++ '"' :: ':' :: ' ' ::
              (dumpsChars val ++ ',' :: ' ' ::
                (dumpsFields (f1 :: fs'') ++ '}' :: rest))).length + 1)
            (':' :: ' ' :: (dumpsChars val ++ ',' :: ' ' ::
              (dumpsFields (f1 :: fs'') ++ '}' :: rest))) hlen
          have hsv : skipWs (' ' :: (dumpsChars val ++ ',' :: ' ' ::
              (dumpsFields (f1 :: fs'') ++ '}' :: rest))) =
              dumpsChars val ++ ',' :: ' ' ::
                (dumpsFields (f1 :: fs'') ++ '}' :: rest) := by
            rw [skipWs_space]
            exact (skipWs_dumps val _).1
          have hV := ihV val (' ' :: (dumpsChars val ++ ',' :: ' ' ::
              (dumpsFields (f1 :: fs'') ++ '}' :: rest)))
            (',' :: ' ' :: (dumpsFields (f1 :: fs'') ++ '}' :: rest)) hwv hsv
            (by intro c hc; simp at hc; subst hc; decide)
          have hwM : mWeightFields (f1 :: fs'') ≤ f := by
            have e : mWeightFields ((k, val) :: f1 :: fs'') =
                1 + mWeight val + mWeightFields (f1 :: fs'') := rfl
            omega
          obtain ⟨t1, ht1⟩ := dumpsFields_head f1 fs''
          have hr5 : skipWs (' ' :: (dumpsFields (f1 :: fs'') ++ '}' :: rest)) =
              dumpsFields (f1 :: fs'') ++ '}' :: rest := by
            rw [skipWs_space, ht1, List.cons_append]
            exact skipWs_not_ws (by decide) _
          have hM := ihM (f1 :: fs'') (' ' :: (dumpsFields (f1 :: fs'') ++ '}' :: rest))
            rest (by simp) hwM hr5
          simp only [parseMembers, hsd, hsb]
          rw [skipWs_not_ws (by decide)]
          simp only [hV]
          rw [skipWs_not_ws (by decide)]
          simp only [hM, Option.map_some']

theorem parseJSON_of_parseVal {s : PyStr} {j : JSON} {r : PyStr}
    (h : parseVal (s.length + 1) s = some (j, r)) (hr : skipWs r = []) :
    parseJSON s = some j := by
  simp only [parseJSON, h, hr, List.isEmpty_nil, if_true]

/-- Structural round trip: re-parsing the canonical serialized text of any
value yields that value of the model, and surrounding insignificant
whitespace parses to the same value.  Whether the re-parsed value is
Python-equal to the original is a separate question settled by pyEq. -/
theorem dumps_reparse (j : JSON) :
    parseJSON (dumpsChars j) = some j ∧
    parseJSON (pstr " " ++ dumpsChars j ++ pstr " ") = some j := by
  constructor
  · have hskip : skipWs (dumpsChars j) = dumpsChars j ++ [] := by
      rw [List.append_nil]
      obtain ⟨c, t, hc, hws, -, -⟩ := dumps_head j
      rw [hc]
      exact skipWs_not_ws hws t
    have h := (parse_dumps_all ((dumpsChars j).length + 1)).1 j (dumpsChars j) []
      (by have := mWeight_le j; omega) hskip (by intro c hc; simp at hc)
    exact parseJSON_of_parseVal h rfl
  · have hskip2 : skipWs (pstr " " ++ dumpsChars j ++ pstr " ") =
        dumpsChars j ++ [' '] := by
      have he : pstr " " ++ dumpsChars j ++ pstr " " = ' ' :: (dumpsChars j ++ [' ']) := by
        simp [pstr]
      rw [he, skipWs_space]
      obtain ⟨c, t, hc, hws, -, -⟩ := dumps_head j
      rw [hc, List.cons_append]
      exact skipWs_not_ws hws _
    have h2 := (parse_dumps_all ((pstr " " ++ dumpsChars j ++ pstr " ").length + 1)).1
      j (pstr " " ++ dumpsChars j ++ pstr " ") [' ']
      (by have := mWeight_le j; simp [pstr, List.length_append]; omega) hskip2
      (by intro c hc; simp at hc; subst hc; decide)
    exact parseJSON_of_parseVal h2 (by decide)

mutual

theorem pyEq_refl : ∀ j : JSON, noNaN j = true → pyEq j j = true
  | .null, _ => by simp [pyEq]
  | .bool b, _ => by simp [pyEq]
  | .num n, _ => by simp [pyEq]
  | .nan, h => by simp [noNaN] at h
  | .str s, _ => by simp [pyEq]
  | .arr es, h => by
    have h2 := pyEqList_refl es (by simpa [noNaN] using h)
    simp [pyEq, h2]
  | .obj fs, h => by
    have h2 := pyEqFields_refl fs (by simpa [noNaN] using h)
    simp [pyEq, h2]

theorem pyEqList_refl : ∀ es : List JSON, noNaNList es = true → pyEqList es es = true
  | [], _ => by simp [pyEqList]
  | v :: vs, h => by
    have hc : noNaN v = true ∧ noNaNList vs = true := by
      simpa [noNaNList, Bool.and_eq_true] using h
    have h1 := pyEq_refl v hc.1
    have h2 := pyEqList_refl vs hc.2
    simp [pyEqList, h1, h2]

theorem pyEqFields_refl :
    ∀ fs : List (PyStr × JSON), noNaNFields fs = true → pyEqFields fs fs = true
  | [], _ => by simp [pyEqFields]
  | (k, v) :: fs, h => by
    have hc : noNaN v = true ∧ noNaNFields fs = true := by
      simpa [noNaNFields, Bool.and_eq_true] using h
    have h1 := pyEq_refl v hc.1
    have h2 := pyEqFields_refl fs hc.2
    simp [pyEqFields, h1, h2]

end

/-- C7 counterexample: the NaN payload refutes the unrestricted round-trip
claim.  json.loads accepts the literal NaN and the resulting float is
truthy, so the body `NaN` passes the handler's `if not data:` check and is
accepted; json.dumps stores it as the text `NaN`; re-parsing that stored
text yields NaN again, but the re-parsed value is not Python-equal to the
originally accepted payload, because nan != nan under Python `==`. -/
theorem claim_C7_counterexample :
    pyTruthy JSON.nan = true ∧
    dumpsChars JSON.nan = pstr "NaN" ∧
    parseJSON (pstr "NaN") = some JSON.nan ∧
    pyEq JSON.nan JSON.nan = false := by
  refine ⟨rfl, by simp [dumpsChars], ?_, by simp [pyEq]⟩
  have h := (dumps_reparse JSON.nan).1
  have hd : dumpsChars JSON.nan = pstr "NaN" := by simp [dumpsChars]
  rw [hd] at h
  exact h

/-- C7 (amended): for every accepted payload containing no NaN, re-parsing
the canonical serialized text stored for that message yields a value
Python-equal to the originally accepted parsed payload, and surrounding
insignificant whitespace parses to the same value, so bodies differing only
in such whitespace are stored identically.  (A NaN-containing payload is
accepted and stored as `NaN`, but the re-parsed value is not equal to the
original, since nan != nan; see the counterexample.) -/
theorem claim_C7_amended_roundtrip (j : JSON) (hj : noNaN j = true) :
    (parseJSON (dumpsChars j) = some j ∧ pyEq j j = true) ∧
    parseJSON (pstr " " ++ dumpsChars j ++ pstr " ") = some j :=
  ⟨⟨(dumps_reparse j).1, pyEq_refl j hj⟩, (dumps_reparse j).2⟩

/-- Witness for C7 at the NaN-free payload {"a": 1}. -/
theorem claim_C7_witness :
    (parseJSON (dumpsChars (JSON.obj [(pstr "a", JSON.num 1)])) =
        some (JSON.obj [(pstr "a", JSON.num 1)]) ∧
      pyEq (JSON.obj [(pstr "a", JSON.num 1)]) (JSON.obj [(pstr "a", JSON.num 1)]) = true) ∧
    parseJSON (pstr " " ++ dumpsChars (JSON.obj [(pstr "a", JSON.num 1)]) ++ pstr " ") =
      some (JSON.obj [(pstr "a", JSON.num 1)]) :=
  claim_C7_amended_roundtrip (JSON.obj [(pstr "a", JSON.num 1)])
    (by simp [noNaN, noNaNFields, noNaNList])
